import Mathlib

/-!
Verification development for the grid trading engine (src/src/logic/botEngine.ts,
src/src/logic/gridContext.ts, src/src/exchange/orderExecutor.ts).

The TypeScript source is shallowly embedded below: JS numbers are modelled as
rationals (ℚ), fallible operations return `Option`/`Except`, the ladder
generation loop (`while (currentPrice < upperPrice)`) is given explicit fuel,
and the mutable per-strategy records become explicit state values.
-/

namespace GridBot

/-- Enum `GridDirection` from src/src/types (part_002): LONG | SHORT. -/
inductive GridDirection : Type
  | LONG : GridDirection
  | SHORT : GridDirection
deriving DecidableEq, Repr

open GridDirection

/-- The numeric/side fields of `GridConfig` (src/src/types, part_002) that the
grid logic reads: direction, lowerPrice, upperPrice, gridSpread,
quantityPerGrid. -/
structure GridConfig where
  direction : GridDirection
  lowerPrice : ℚ
  upperPrice : ℚ
  gridSpread : ℚ
  quantityPerGrid : ℚ
deriving DecidableEq, Repr

/-- Record `GridLevel` (src/src/types, part_002): index, price, buyOrderId, sellOrderId. -/
structure GridLevel where
  index : ℕ
  price : ℚ
  buyOrderId : String
  sellOrderId : String
deriving DecidableEq, Repr

/-- Placeholder level used to totalize JS array indexing (`levels[idx]`);
theorems that depend on level contents carry bounds hypotheses under which the
placeholder is never read. -/
def dummyLevel : GridLevel := ⟨0, 0, "", ""⟩

/-- JavaScript `Math.round`: rounds half toward positive infinity. -/
def jsRound (x : ℚ) : ℤ := ⌊x + 1/2⌋

/-- Helper `roundToTick` from `GridContext.calculateLevels`:
`precision = 1 / tickSize; Math.round(p * precision) / precision`. -/
def roundToTick (tickSize p : ℚ) : ℚ :=
  let precision := 1 / tickSize
  (jsRound (p * precision) : ℚ) / precision

/-- The `while (currentPrice < upperPrice)` loop of
`GridContext.calculateLevels`, with explicit fuel bounding the number of
iterations. Each iteration increments the index, multiplies the running
(pre-round) price by `1 + gridSpread` and appends the tick-rounded level.
Returns `none` when the fuel is exhausted with the loop guard still true. -/
def calcLoop (upperPrice gridSpread tickSize : ℚ) :
    ℕ → ℕ → ℚ → List GridLevel → Option (List GridLevel)
  | 0, _, currentPrice, acc =>
      if currentPrice < upperPrice then none else some acc
  | fuel + 1, index, currentPrice, acc =>
      if currentPrice < upperPrice then
        let nextPrice := currentPrice * (1 + gridSpread)
        calcLoop upperPrice gridSpread tickSize fuel (index + 1) nextPrice
          (acc ++ [⟨index + 1, roundToTick tickSize nextPrice, "", ""⟩])
      else some acc

/-- Method `GridContext.calculateLevels(tickSize)`: seeds the ladder with
`{index 0, roundToTick(lowerPrice)}` and runs the generation loop. -/
def calculateLevels (config : GridConfig) (tickSize : ℚ) (fuel : ℕ) :
    Option (List GridLevel) :=
  calcLoop config.upperPrice config.gridSpread tickSize fuel 0 config.lowerPrice
    [⟨0, roundToTick tickSize config.lowerPrice, "", ""⟩]

/-- The scan of `GridContext.getNearestLevels`: first consecutive pair of
levels whose prices bracket the given price. -/
def findBracket (price : ℚ) : List GridLevel → Option (GridLevel × GridLevel)
  | a :: b :: rest =>
      if a.price ≤ price ∧ price ≤ b.price then some (a, b)
      else findBracket price (b :: rest)
  | _ => none

/-- Method `GridContext.getNearestLevels(currentPrice)`: `null` when fewer than two
levels or when the price is outside `(lowerPrice, upperPrice)`, otherwise the
first bracketing pair. -/
def getNearestLevels (config : GridConfig) (levels : List GridLevel)
    (currentPrice : ℚ) : Option (GridLevel × GridLevel) :=
  if levels.length < 2 then none
  else if currentPrice ≥ config.upperPrice ∨ currentPrice ≤ config.lowerPrice then none
  else findBracket currentPrice levels

/-! ### Characterization of the ladder-generation loop -/

/-- Helper used to equate two `GridLevel` records whose ids are empty. -/
theorem mkLevelCongr (tick : ℚ) {a b : ℕ} {pa pb : ℚ} (h1 : a = b) (h2 : pa = pb) :
    (⟨a, roundToTick tick pa, "", ""⟩ : GridLevel) = ⟨b, roundToTick tick pb, "", ""⟩ := by
  rw [h1, h2]

/-- Specification-side shape of the levels appended by the generation loop:
`n` further levels, each advancing the index and multiplying the running
pre-round price by `1 + s`. -/
def ladderTail (s tick : ℚ) (index : ℕ) (cp : ℚ) : ℕ → List GridLevel
  | 0 => []
  | n + 1 =>
      ⟨index + 1, roundToTick tick (cp * (1 + s)), "", ""⟩ ::
        ladderTail s tick (index + 1) (cp * (1 + s)) n

theorem ladderTail_length (s tick : ℚ) :
    ∀ (n : ℕ) (index : ℕ) (cp : ℚ), (ladderTail s tick index cp n).length = n := by
  intro n
  induction n with
  | zero => intro index cp; rfl
  | succ n ih => intro index cp; simp [ladderTail, ih]

theorem ladderTail_getD (s tick : ℚ) :
    ∀ (n j : ℕ) (index : ℕ) (cp : ℚ), j < n →
      (ladderTail s tick index cp n).getD j dummyLevel
        = ⟨index + 1 + j, roundToTick tick (cp * (1 + s) ^ (j + 1)), "", ""⟩ := by
  intro n
  induction n with
  | zero => intro j index cp hj; omega
  | succ n ih =>
    intro j index cp hj
    match j with
    | 0 =>
      simp only [ladderTail, List.getD_cons_zero]
      exact mkLevelCongr tick (by omega) (by ring)
    | j' + 1 =>
      simp only [ladderTail, List.getD_cons_succ]
      rw [ih j' (index + 1) (cp * (1 + s)) (by omega)]
      exact mkLevelCongr tick (by omega) (by ring)

/-- Successful runs of the generation loop append exactly the tick-rounded
geometric tail, stopping at the first pre-round price reaching `upperPrice`. -/
theorem calcLoop_eq_some (upper s tick : ℚ) :
    ∀ (fuel index : ℕ) (cp : ℚ) (acc L : List GridLevel),
      calcLoop upper s tick fuel index cp acc = some L →
      ∃ n, n ≤ fuel ∧ L = acc ++ ladderTail s tick index cp n ∧
        (∀ j < n, cp * (1 + s) ^ j < upper) ∧ upper ≤ cp * (1 + s) ^ n := by
  intro fuel
  induction fuel with
  | zero =>
    intro index cp acc L h
    simp only [calcLoop] at h
    split at h
    · exact absurd h (by simp)
    · rename_i hge
      refine ⟨0, le_refl 0, ?_, fun j hj => absurd hj (Nat.not_lt_zero j), ?_⟩
      · rw [← Option.some.injEq _ _ |>.mp h]
        simp [ladderTail]
      · simpa using not_lt.mp hge
  | succ fuel ih =>
    intro index cp acc L h
    simp only [calcLoop] at h
    split at h
    · rename_i hlt
      obtain ⟨n, hn, hL, hcond, hterm⟩ := ih (index + 1) (cp * (1 + s))
        (acc ++ [⟨index + 1, roundToTick tick (cp * (1 + s)), "", ""⟩]) L h
      refine ⟨n + 1, by omega, ?_, ?_, ?_⟩
      · rw [hL]
        simp [ladderTail, List.append_assoc]
      · intro j hj
        match j with
        | 0 => simpa using hlt
        | j' + 1 =>
          have he : cp * (1 + s) ^ (j' + 1) = cp * (1 + s) * (1 + s) ^ j' := by ring
          rw [he]
          exact hcond j' (by omega)
      · have he : cp * (1 + s) ^ (n + 1) = cp * (1 + s) * (1 + s) ^ n := by ring
        rw [he]
        exact hterm
    · rename_i hge
      refine ⟨0, by omega, ?_, fun j hj => absurd hj (Nat.not_lt_zero j), ?_⟩
      · rw [← Option.some.injEq _ _ |>.mp h]
        simp [ladderTail]
      · simpa using not_lt.mp hge

/-- The loop succeeds whenever the fuel already suffices to push the running
price past `upperPrice` (running price is positive and grows by `1+s > 0`). -/
theorem calcLoop_isSome_of_reach (upper s tick : ℚ) (hs : 0 < 1 + s) :
    ∀ (fuel index : ℕ) (cp : ℚ) (acc : List GridLevel), 0 < cp →
      upper ≤ cp * (1 + s) ^ fuel →
      (calcLoop upper s tick fuel index cp acc).isSome := by
  intro fuel
  induction fuel with
  | zero =>
    intro index cp acc hcp hreach
    simp only [pow_zero, mul_one] at hreach
    simp [calcLoop, not_lt.mpr hreach]
  | succ fuel ih =>
    intro index cp acc hcp hreach
    simp only [calcLoop]
    split
    · exact ih (index + 1) (cp * (1 + s)) _ (by positivity)
        (by rw [mul_assoc, ← pow_succ']; exact hreach)
    · simp

/-- When `|1 + s| ≤ 1` the running price stays inside `[-B, B]`, so a band
with `B < upperPrice` makes the loop spin forever (fuel always runs out). -/
theorem calcLoop_none_of_contraction (upper s tick B : ℚ)
    (habs : |1 + s| ≤ 1) (hB : B < upper) :
    ∀ (fuel index : ℕ) (cp : ℚ) (acc : List GridLevel), |cp| ≤ B →
      calcLoop upper s tick fuel index cp acc = none := by
  intro fuel
  induction fuel with
  | zero =>
    intro index cp acc hcp
    have hlt : cp < upper := lt_of_le_of_lt (le_trans (le_abs_self cp) hcp) hB
    simp [calcLoop, hlt]
  | succ fuel ih =>
    intro index cp acc hcp
    have hlt : cp < upper := lt_of_le_of_lt (le_trans (le_abs_self cp) hcp) hB
    simp only [calcLoop, if_pos hlt]
    refine ih (index + 1) (cp * (1 + s)) _ ?_
    calc |cp * (1 + s)| = |cp| * |1 + s| := abs_mul cp (1 + s)
      _ ≤ B * 1 := by
          exact mul_le_mul hcp habs (abs_nonneg _) (le_trans (abs_nonneg cp) hcp)
      _ = B := mul_one B

/-! ### C4: validation of the price band and spread -/

/-- C4 (counterexample): the claim says every config with
`upperPrice ≤ lowerPrice` makes `calculateLevels` fail with a `ConfigError`
instead of producing a ladder. The code has no validation at all: with
`lowerPrice = 2`, `upperPrice = 1`, `gridSpread = 1/10`, tick `1`, the loop
guard is immediately false and a one-level ladder is produced. -/
theorem c4_counterexample :
    calculateLevels ⟨GridDirection.LONG, 2, 1, 1/10, 1⟩ 1 0 = some [⟨0, 2, "", ""⟩] := by
  norm_num [calculateLevels, calcLoop, roundToTick, jsRound]

/-- C4 (amended): `calculateLevels` performs no config validation and raises
no `ConfigError`. For `upperPrice ≤ lowerPrice` it returns the one-level
ladder `[level 0]` regardless of fuel; for `-2 ≤ gridSpread ≤ 0` with
`0 < lowerPrice < upperPrice` the generation loop never terminates, so no
ladder is ever produced. -/
theorem c4_amended (config : GridConfig) (tick : ℚ) :
    (config.upperPrice ≤ config.lowerPrice →
      ∀ fuel, calculateLevels config tick fuel
        = some [⟨0, roundToTick tick config.lowerPrice, "", ""⟩]) ∧
    (-2 ≤ config.gridSpread → config.gridSpread ≤ 0 →
      0 < config.lowerPrice → config.lowerPrice < config.upperPrice →
      ∀ fuel, calculateLevels config tick fuel = none) := by
  constructor
  · intro hle fuel
    cases fuel with
    | zero => simp [calculateLevels, calcLoop, not_lt.mpr hle]
    | succ fuel => simp [calculateLevels, calcLoop, not_lt.mpr hle]
  · intro hs2 hs0 hpos hlt fuel
    refine calcLoop_none_of_contraction config.upperPrice config.gridSpread tick
      config.lowerPrice ?_ hlt fuel 0 config.lowerPrice _ ?_
    · rw [abs_le]
      constructor <;> linarith
    · rw [abs_of_pos hpos]

/-- C4 (witness for the amended theorem): both branches at concrete configs. -/
theorem c4_witness :
    calculateLevels ⟨GridDirection.LONG, 2, 1, 1/10, 1⟩ 1 3 = some [⟨0, 2, "", ""⟩] ∧
    calculateLevels ⟨GridDirection.LONG, 1, 2, 0, 1⟩ 1 5 = none := by
  constructor
  · have h := (c4_amended ⟨GridDirection.LONG, 2, 1, 1/10, 1⟩ 1).1 (by norm_num) 3
    have h2 : roundToTick (1 : ℚ) 2 = 2 := by norm_num [roundToTick, jsRound]
    rw [h2] at h
    exact h
  · exact (c4_amended ⟨GridDirection.LONG, 1, 2, 0, 1⟩ 1).2 (by norm_num) (by norm_num)
      (by norm_num) (by norm_num) 5

/-! ### C10: termination of the ladder-generation loop -/

/-- C10 (counterexample): the claim asserts the positivity precondition is
necessary because the running price "does not increase when gridSpread ≤ 0".
With `gridSpread = -3` the running price flips sign and grows in magnitude
(1 → -2 → 4), so the loop terminates even though the spread is negative. -/
theorem c10_counterexample :
    calculateLevels ⟨GridDirection.LONG, 1, 2, -3, 1⟩ 1 2
      = some [⟨0, 1, "", ""⟩, ⟨1, -2, "", ""⟩, ⟨2, 4, "", ""⟩] := by
  norm_num [calculateLevels, calcLoop, roundToTick, jsRound]

/-- C10 (amended): for every config with `0 < lowerPrice < upperPrice`,
`gridSpread > 0` and positive tick, the generation loop terminates (some fuel
suffices), the pre-round running price growing geometrically past
`upperPrice`. The positivity precondition is necessary on the range
`gridSpread ≥ -2`: for `-2 ≤ gridSpread ≤ 0` the running price never reaches
`upperPrice` and the loop runs forever (for `gridSpread < -2` it may
terminate, as the counterexample shows). -/
theorem c10_amended (config : GridConfig) (tick : ℚ) :
    (0 < config.lowerPrice → config.lowerPrice < config.upperPrice →
      0 < config.gridSpread → 0 < tick →
      ∃ fuel, (calculateLevels config tick fuel).isSome = true) ∧
    (-2 ≤ config.gridSpread → config.gridSpread ≤ 0 →
      0 < config.lowerPrice → config.lowerPrice < config.upperPrice →
      ∀ fuel, calculateLevels config tick fuel = none) := by
  constructor
  · intro hpos hlt hs _
    set lower := config.lowerPrice
    set upper := config.upperPrice
    set s := config.gridSpread
    obtain ⟨n, hn⟩ := exists_nat_ge ((upper - lower) / (lower * s))
    have hls : 0 < lower * s := mul_pos hpos hs
    have hbound : upper - lower ≤ n * (lower * s) := by
      have := (div_le_iff₀ hls).mp hn
      linarith
    have hbern : 1 + (n : ℚ) * s ≤ (1 + s) ^ n :=
      one_add_mul_le_pow (by linarith) n
    have hreach : upper ≤ lower * (1 + s) ^ n := by
      have h1 : lower * (1 + (n : ℚ) * s) ≤ lower * (1 + s) ^ n :=
        mul_le_mul_of_nonneg_left hbern (le_of_lt hpos)
      nlinarith
    exact ⟨n, calcLoop_isSome_of_reach upper s tick (by linarith) n 0 lower _ hpos hreach⟩
  · intro hs2 hs0 hpos hlt fuel
    refine calcLoop_none_of_contraction config.upperPrice config.gridSpread tick
      config.lowerPrice ?_ hlt fuel 0 config.lowerPrice _ ?_
    · rw [abs_le]
      constructor <;> linarith
    · rw [abs_of_pos hpos]

/-- C10 (witness): termination at a concrete valid config, divergence at a
concrete zero-spread config. -/
theorem c10_witness :
    (∃ fuel, (calculateLevels ⟨GridDirection.LONG, 100, 110, 1/100, 1⟩ (1/100) fuel).isSome
      = true) ∧
    calculateLevels ⟨GridDirection.LONG, 1, 2, 0, 1⟩ 1 7 = none := by
  constructor
  · exact (c10_amended ⟨GridDirection.LONG, 100, 110, 1/100, 1⟩ (1/100)).1
      (by norm_num) (by norm_num) (by norm_num) (by norm_num)
  · exact (c10_amended ⟨GridDirection.LONG, 1, 2, 0, 1⟩ 1).2 (by norm_num) (by norm_num)
      (by norm_num) (by norm_num) 7

/-! ### C5: shape of a successfully generated ladder -/

/-- Tick rounding preserves gaps of at least one tick. -/
theorem roundToTick_gap (tick a b : ℚ) (ht : 0 < tick) (h : a + tick ≤ b) :
    roundToTick tick a + tick ≤ roundToTick tick b := by
  simp only [roundToTick, jsRound]
  have htne : tick ≠ 0 := ne_of_gt ht
  have hp : (0 : ℚ) < 1 / tick := by positivity
  have hmul : a * (1 / tick) + 1 ≤ b * (1 / tick) := by
    have := mul_le_mul_of_nonneg_right h (le_of_lt hp)
    have hone : tick * (1 / tick) = 1 := by field_simp
    nlinarith
  have hfl : ⌊a * (1 / tick) + 1 / 2⌋ + 1 ≤ ⌊b * (1 / tick) + 1 / 2⌋ := by
    have h1 : ⌊a * (1 / tick) + 1 / 2 + 1⌋ ≤ ⌊b * (1 / tick) + 1 / 2⌋ :=
      Int.floor_le_floor (by linarith)
    rwa [Int.floor_add_one] at h1
  have hcast : ((⌊a * (1 / tick) + 1 / 2⌋ : ℚ) + 1) ≤ (⌊b * (1 / tick) + 1 / 2⌋ : ℚ) := by
    exact_mod_cast hfl
  have hdiv : ∀ y : ℚ, y / (1 / tick) = y * tick := by
    intro y; field_simp
  rw [hdiv, hdiv]
  nlinarith

/-- Tick rounding moves a price by at most half a tick. -/
theorem roundToTick_abs_sub (tick x : ℚ) (ht : 0 < tick) :
    |roundToTick tick x - x| ≤ tick / 2 := by
  simp only [roundToTick, jsRound]
  have htne : tick ≠ 0 := ne_of_gt ht
  have h1 : ((⌊x * (1 / tick) + 1 / 2⌋ : ℚ)) ≤ x * (1 / tick) + 1 / 2 := Int.floor_le _
  have h2 : x * (1 / tick) + 1 / 2 - 1 < (⌊x * (1 / tick) + 1 / 2⌋ : ℚ) :=
    Int.sub_one_lt_floor _
  have hdiv : ∀ y : ℚ, y / (1 / tick) = y * tick := by
    intro y; field_simp
  rw [hdiv]
  rw [abs_le]
  have hone : x * (1 / tick) * tick = x := by field_simp
  constructor <;> nlinarith

/-- C5 (counterexample): the claim promises a strictly increasing ladder for
every valid config and positive tick. With `lowerPrice = 1`,
`upperPrice = 501/500`, `gridSpread = 1/1000` and tick `1/10`, the spread is
far below the tick, every level rounds to price `1`, and the produced ladder
is constant, not strictly increasing. -/
theorem c5_counterexample :
    calculateLevels ⟨GridDirection.LONG, 1, 501/500, 1/1000, 1⟩ (1/10) 2
      = some [⟨0, 1, "", ""⟩, ⟨1, 1, "", ""⟩, ⟨2, 1, "", ""⟩] ∧
    ¬ List.Chain' (fun a b => a < b)
      (([⟨0, 1, "", ""⟩, ⟨1, 1, "", ""⟩, ⟨2, 1, "", ""⟩] : List GridLevel).map
        GridLevel.price) := by
  constructor
  · norm_num [calculateLevels, calcLoop, roundToTick, jsRound]
  · simp [List.chain'_cons]

/-- C5 (amended): for a valid config (`0 < lowerPrice < upperPrice`,
`gridSpread > 0`, tick `> 0`) whose per-step price increment covers at least
one tick (`tickSize ≤ lowerPrice * gridSpread`), a successfully generated
ladder is strictly increasing in price, starts at `lowerPrice` rounded to
tick, lists the tick-rounded geometric sequence, terminates at the first
level whose pre-round price reaches `upperPrice`, and consecutive prices
agree with ratio `1 + gridSpread` within tick-rounding error. -/
theorem c5_amended (config : GridConfig) (tick : ℚ) (fuel : ℕ) (L : List GridLevel)
    (hpos : 0 < config.lowerPrice) (hlt : config.lowerPrice < config.upperPrice)
    (hs : 0 < config.gridSpread) (ht : 0 < tick)
    (hgap : tick ≤ config.lowerPrice * config.gridSpread)
    (hL : calculateLevels config tick fuel = some L) :
    List.Chain' (fun a b => a < b) (L.map GridLevel.price) ∧
    L.getD 0 dummyLevel = ⟨0, roundToTick tick config.lowerPrice, "", ""⟩ ∧
    (∃ n, L.length = n + 1 ∧
      (∀ i, i ≤ n → (L.getD i dummyLevel).price
        = roundToTick tick (config.lowerPrice * (1 + config.gridSpread) ^ i)) ∧
      (∀ i, i < n → config.lowerPrice * (1 + config.gridSpread) ^ i < config.upperPrice) ∧
      config.upperPrice ≤ config.lowerPrice * (1 + config.gridSpread) ^ n) ∧
    (∀ i, i + 1 < L.length →
      |(L.getD (i + 1) dummyLevel).price
          - (1 + config.gridSpread) * (L.getD i dummyLevel).price|
        ≤ tick * (2 + config.gridSpread) / 2) := by
  set lower := config.lowerPrice with hlower
  set s := config.gridSpread with hsdef
  obtain ⟨n, hn, hshape, hcond, hterm⟩ :=
    calcLoop_eq_some config.upperPrice s tick fuel 0 lower _ L hL
  have hL' : L = (⟨0, roundToTick tick lower, "", ""⟩ : GridLevel) ::
      ladderTail s tick 0 lower n := by
    rw [hshape]; rfl
  have hlen : L.length = n + 1 := by
    rw [hL']
    simp [ladderTail_length]
  -- every position of the ladder is the rounded geometric price
  have hget : ∀ i, i ≤ n → L.getD i dummyLevel
      = ⟨i, roundToTick tick (lower * (1 + s) ^ i), "", ""⟩ := by
    intro i hi
    match i with
    | 0 =>
      rw [hL']
      simp only [List.getD_cons_zero]
      exact mkLevelCongr tick rfl (by ring)
    | j + 1 =>
      rw [hL']
      simp only [List.getD_cons_succ]
      rw [ladderTail_getD s tick n j 0 lower (by omega)]
      exact mkLevelCongr tick (by omega) rfl
  -- the pre-round sequence is pointwise at least `lower`
  have hlowbound : ∀ i : ℕ, lower ≤ lower * (1 + s) ^ i := by
    intro i
    have h1 : (1 : ℚ) ≤ (1 + s) ^ i := one_le_pow₀ (by linarith)
    nlinarith
  -- consecutive pre-round prices are at least a tick apart
  have hstep : ∀ i : ℕ, lower * (1 + s) ^ i + tick ≤ lower * (1 + s) ^ (i + 1) := by
    intro i
    have h1 := hlowbound i
    have h2 : lower * (1 + s) ^ (i + 1) = lower * (1 + s) ^ i + lower * (1 + s) ^ i * s := by
      ring
    nlinarith
  refine ⟨?_, ?_, ⟨n, hlen, ?_, hcond, hterm⟩, ?_⟩
  · -- strict monotonicity of rounded prices
    rw [List.chain'_iff_get]
    intro i hi
    simp only [List.length_map] at hi
    rw [List.get_map, List.get_map]
    have hib : i + 1 < L.length := by omega
    have hia : i < L.length := by omega
    rw [← List.getD_eq_get _ dummyLevel hia, ← List.getD_eq_get _ dummyLevel hib]
    rw [hget i (by omega), hget (i + 1) (by omega)]
    have hmono := roundToTick_gap tick (lower * (1 + s) ^ i) (lower * (1 + s) ^ (i + 1))
      ht (hstep i)
    simp only
    linarith
  · rw [hget 0 (by omega)]
    exact mkLevelCongr tick rfl (by ring)
  · intro i hi
    rw [hget i hi]
  · intro i hi
    rw [hlen] at hi
    rw [hget i (by omega), hget (i + 1) (by omega)]
    simp only
    have hr0 := roundToTick_abs_sub tick (lower * (1 + s) ^ i) ht
    have hr1 := roundToTick_abs_sub tick (lower * (1 + s) ^ (i + 1)) ht
    rw [abs_le] at hr0 hr1 ⊢
    have hq : lower * (1 + s) ^ (i + 1) = (1 + s) * (lower * (1 + s) ^ i) := by ring
    constructor <;> nlinarith [hr0.1, hr0.2, hr1.1, hr1.2]

/-- C5 (witness): the amended theorem applied to the concrete config
`lower 100, upper 103, spread 1/100`, tick `1/100`. -/
theorem c5_witness :
    List.Chain' (fun a b => a < b)
      (([⟨0, 100, "", ""⟩, ⟨1, 101, "", ""⟩, ⟨2, 10201/100, "", ""⟩,
          ⟨3, 10303/100, "", ""⟩] : List GridLevel).map GridLevel.price) := by
  exact (c5_amended ⟨GridDirection.LONG, 100, 103, 1/100, 1⟩ (1/100) 5 _
    (by norm_num) (by norm_num) (by norm_num) (by norm_num) (by norm_num)
    (by norm_num [calculateLevels, calcLoop, roundToTick, jsRound])).1

/-! ### OnFill anchor update (BotEngine.watchOrdersLoop, fill branch) -/

/-- Ternary from the fill handler: index of whichever bracket level is
numerically closer to the given price (ties go to the upper level). -/
def closerIndex (pair : GridLevel × GridLevel) (p : ℚ) : ℕ :=
  if |pair.1.price - p| < |pair.2.price - p| then pair.1.index else pair.2.index

/-- Condition `isTriggeringStrat` from `watchOrdersLoop`: the filled order's
side matches the strategy's direction. -/
def isTriggeringStrat (orderSide : String) (direction : GridDirection) : Bool :=
  decide ((orderSide = "buy" ∧ direction = GridDirection.LONG) ∨
    (orderSide = "sell" ∧ direction = GridDirection.SHORT))

/-- Anchor stored by the fill branch of `watchOrdersLoop` for one strategy:
`none` when `getNearestLevels(referencePrice)` is `null` (anchor untouched),
otherwise the candidate anchor, clamped by the profit-protection rule when
this strategy triggered the fill and the fill is tagged `open`. -/
def onFillAnchor (config : GridConfig) (levels : List GridLevel)
    (referencePrice fillPrice : ℚ) (orderSide tradeSide : String) : Option ℕ :=
  match getNearestLevels config levels referencePrice with
  | none => none
  | some nearest =>
    let newAnchor := closerIndex nearest referencePrice
    let finalAnchor :=
      if isTriggeringStrat orderSide config.direction then
        match getNearestLevels config levels fillPrice with
        | some filledNearest =>
          let filledIdx := closerIndex filledNearest fillPrice
          if tradeSide = "open" then
            if config.direction = GridDirection.LONG then max newAnchor filledIdx
            else min newAnchor filledIdx
          else newAnchor
        | none => newAnchor
      else newAnchor
    some finalAnchor

/-- C2: for an own-side (`triggering`) fill tagged `open`, with brackets
defined at both the reference and the fill price, the stored anchor is
clamped to the filled index (≥ for LONG, ≤ for SHORT); for non-triggering
strategies or non-`open` fills the candidate anchor is stored unchanged. -/
theorem c2_profit_protection (config : GridConfig) (levels : List GridLevel)
    (referencePrice fillPrice : ℚ) (orderSide tradeSide : String)
    (nb fb : GridLevel × GridLevel)
    (href : getNearestLevels config levels referencePrice = some nb)
    (hfill : getNearestLevels config levels fillPrice = some fb) :
    (isTriggeringStrat orderSide config.direction = true → tradeSide = "open" →
      (config.direction = GridDirection.LONG →
        onFillAnchor config levels referencePrice fillPrice orderSide tradeSide
          = some (max (closerIndex nb referencePrice) (closerIndex fb fillPrice)) ∧
        closerIndex fb fillPrice ≤ max (closerIndex nb referencePrice) (closerIndex fb fillPrice)) ∧
      (config.direction = GridDirection.SHORT →
        onFillAnchor config levels referencePrice fillPrice orderSide tradeSide
          = some (min (closerIndex nb referencePrice) (closerIndex fb fillPrice)) ∧
        min (closerIndex nb referencePrice) (closerIndex fb fillPrice) ≤ closerIndex fb fillPrice)) ∧
    ((isTriggeringStrat orderSide config.direction = false ∨ tradeSide ≠ "open") →
      onFillAnchor config levels referencePrice fillPrice orderSide tradeSide
        = some (closerIndex nb referencePrice)) := by
  constructor
  · intro htrig hopen
    constructor
    · intro hdir
      rw [hdir] at htrig
      refine ⟨?_, le_max_right _ _⟩
      simp [onFillAnchor, href, hfill, htrig, hopen, hdir]
    · intro hdir
      rw [hdir] at htrig
      refine ⟨?_, min_le_right _ _⟩
      simp [onFillAnchor, href, hfill, htrig, hopen, hdir]
  · intro hcase
    rcases hcase with hfalse | hne
    · simp [onFillAnchor, href, hfill, hfalse]
    · simp only [onFillAnchor, href, hfill]
      split
      · simp [hne]
      · rfl

/-- C2 (witness): LONG strategy, buy `open` fill at `101.6` with reference
price `100.4` on the ladder `100, 101, 102, 103`; the candidate anchor `0` is
clamped up to the filled index `2`. -/
theorem c2_witness :
    onFillAnchor ⟨GridDirection.LONG, 100, 104, 1/100, 1⟩
      [⟨0, 100, "", ""⟩, ⟨1, 101, "", ""⟩, ⟨2, 102, "", ""⟩, ⟨3, 103, "", ""⟩]
      (502/5) (508/5) "buy" "open"
      = some (max (closerIndex (⟨0, 100, "", ""⟩, ⟨1, 101, "", ""⟩) (502/5))
          (closerIndex (⟨1, 101, "", ""⟩, ⟨2, 102, "", ""⟩) (508/5))) ∧
    closerIndex (⟨1, 101, "", ""⟩, ⟨2, 102, "", ""⟩) (508/5)
      ≤ max (closerIndex (⟨0, 100, "", ""⟩, ⟨1, 101, "", ""⟩) (502/5))
          (closerIndex (⟨1, 101, "", ""⟩, ⟨2, 102, "", ""⟩) (508/5)) := by
  exact (c2_profit_protection ⟨GridDirection.LONG, 100, 104, 1/100, 1⟩
    [⟨0, 100, "", ""⟩, ⟨1, 101, "", ""⟩, ⟨2, 102, "", ""⟩, ⟨3, 103, "", ""⟩]
    (502/5) (508/5) "buy" "open" _ _
    (by norm_num [getNearestLevels, findBracket])
    (by norm_num [getNearestLevels, findBracket])).1 rfl rfl |>.1 rfl

/-! ### Refresh target computation (BotEngine.refreshGridOrdersByAnchor) -/

/-- Ephemeral target descriptor pushed by `refreshGridOrdersByAnchor`. -/
structure TargetOrder where
  price : ℚ
  amount : ℚ
  action : String
deriving DecidableEq, Repr

/-- Lower (buy-side) window loop: `for i = 1..windowSize`, level
`anchor - i`, breaking at the bottom of the ladder; action `open` for LONG,
`close` for SHORT. The second argument is the remaining iteration count. -/
def lowerWindowLoop (levels : List GridLevel) (config : GridConfig)
    (anchorIndex : ℕ) : ℕ → ℕ → List TargetOrder
  | _, 0 => []
  | i, rem + 1 =>
    if i ≤ anchorIndex then
      ⟨(levels.getD (anchorIndex - i) dummyLevel).price, config.quantityPerGrid,
        if config.direction = GridDirection.LONG then "open" else "close"⟩ ::
        lowerWindowLoop levels config anchorIndex (i + 1) rem
    else []

/-- Upper (sell-side) window loop: `for i = 1..windowSize`, level
`anchor + i`, breaking at the top of the ladder; a LONG close target is
skipped (`continue`) while `closeDisabled` is set. -/
def upperWindowLoop (levels : List GridLevel) (config : GridConfig)
    (anchorIndex : ℕ) (closeDisabled : Bool) : ℕ → ℕ → List TargetOrder
  | _, 0 => []
  | i, rem + 1 =>
    if anchorIndex + i ≥ levels.length then []
    else if config.direction = GridDirection.LONG ∧ closeDisabled = true then
      upperWindowLoop levels config anchorIndex closeDisabled (i + 1) rem
    else
      ⟨(levels.getD (anchorIndex + i) dummyLevel).price, config.quantityPerGrid,
        if config.direction = GridDirection.LONG then "close" else "open"⟩ ::
        upperWindowLoop levels config anchorIndex closeDisabled (i + 1) rem

/-- Target list computed by one pass of `refreshGridOrdersByAnchor`: lower
window, then upper window, then the in-place `splice` loop that removes
SHORT close targets while `closeDisabled` is set (the loop decrements its
index after each removal, so it visits every element exactly once and is an
elementwise filter). -/
def buildRefreshTargets (config : GridConfig) (levels : List GridLevel)
    (anchorIndex windowSize : ℕ) (closeDisabled : Bool) : List TargetOrder :=
  (lowerWindowLoop levels config anchorIndex 1 windowSize ++
    upperWindowLoop levels config anchorIndex closeDisabled 1 windowSize).filter
    (fun t => !(decide (config.direction = GridDirection.SHORT ∧
      t.action = "close" ∧ closeDisabled = true)))

theorem lowerWindowLoop_action (levels : List GridLevel) (config : GridConfig)
    (anchorIndex : ℕ) :
    ∀ (rem i : ℕ) (t : TargetOrder), t ∈ lowerWindowLoop levels config anchorIndex i rem →
      t.action = if config.direction = GridDirection.LONG then "open" else "close" := by
  intro rem
  induction rem with
  | zero => intro i t ht; simp [lowerWindowLoop] at ht
  | succ rem ih =>
    intro i t ht
    simp only [lowerWindowLoop] at ht
    split at ht
    · rcases List.mem_cons.mp ht with h | h
      · rw [h]
      · exact ih (i + 1) t h
    · simp at ht

theorem upperWindowLoop_long_disabled (levels : List GridLevel) (config : GridConfig)
    (anchorIndex : ℕ) (hdir : config.direction = GridDirection.LONG) :
    ∀ (rem i : ℕ), upperWindowLoop levels config anchorIndex true i rem = [] := by
  intro rem
  induction rem with
  | zero => intro i; rfl
  | succ rem ih =>
    intro i
    simp only [upperWindowLoop]
    split
    · rfl
    · rw [if_pos ⟨hdir, by trivial⟩]
      exact ih (i + 1)

/-- C3: while `closeDisabled` is set, the refresh target set contains no
`close` target (LONG close targets are skipped in the upper loop, SHORT close
targets are removed by the splice pass); and the spec's concrete example:
LONG strategy, anchor 5, window 1 over a ladder of length ≥ 7 yields exactly
`level[4]` open plus `level[6]` close, and only `level[4]` open once
`closeDisabled` is set. -/
theorem c3_closeDisabled_targets (config : GridConfig) (levels : List GridLevel)
    (anchorIndex windowSize : ℕ) :
    (∀ t ∈ buildRefreshTargets config levels anchorIndex windowSize true,
      t.action ≠ "close") ∧
    (config.direction = GridDirection.LONG → 7 ≤ levels.length →
      buildRefreshTargets config levels 5 1 false
        = [⟨(levels.getD 4 dummyLevel).price, config.quantityPerGrid, "open"⟩,
           ⟨(levels.getD 6 dummyLevel).price, config.quantityPerGrid, "close"⟩] ∧
      buildRefreshTargets config levels 5 1 true
        = [⟨(levels.getD 4 dummyLevel).price, config.quantityPerGrid, "open"⟩]) := by
  constructor
  · intro t ht
    simp only [buildRefreshTargets, List.mem_filter, List.mem_append] at ht
    obtain ⟨hmem, hkeep⟩ := ht
    by_cases hdir : config.direction = GridDirection.SHORT
    · intro hclose
      simp [hdir, hclose] at hkeep
    · have hlong : config.direction = GridDirection.LONG := by
        cases hcfg : config.direction
        · rfl
        · exact absurd hcfg hdir
      rcases hmem with h | h
      · have := lowerWindowLoop_action levels config anchorIndex windowSize 1 t h
        rw [hlong] at this
        simp only [if_pos rfl] at this
        rw [this]
        decide
      · rw [upperWindowLoop_long_disabled levels config anchorIndex hlong windowSize 1] at h
        simp at h
  · intro hdir hlen
    have h4 : ¬ (5 + 1 ≥ levels.length) := by omega
    constructor
    · simp [buildRefreshTargets, lowerWindowLoop, upperWindowLoop, hdir, h4]
    · rw [buildRefreshTargets,
        upperWindowLoop_long_disabled levels config 5 hdir 1 1]
      simp [lowerWindowLoop, hdir]

/-- C3 (witness): the example instantiated on the seven-level ladder
`100..106` for a LONG strategy with unit quantity. -/
theorem c3_witness :
    buildRefreshTargets ⟨GridDirection.LONG, 100, 107, 1/100, 1⟩
      [⟨0, 100, "", ""⟩, ⟨1, 101, "", ""⟩, ⟨2, 102, "", ""⟩, ⟨3, 103, "", ""⟩,
       ⟨4, 104, "", ""⟩, ⟨5, 105, "", ""⟩, ⟨6, 106, "", ""⟩] 5 1 false
      = [⟨104, 1, "open"⟩, ⟨106, 1, "close"⟩] ∧
    buildRefreshTargets ⟨GridDirection.LONG, 100, 107, 1/100, 1⟩
      [⟨0, 100, "", ""⟩, ⟨1, 101, "", ""⟩, ⟨2, 102, "", ""⟩, ⟨3, 103, "", ""⟩,
       ⟨4, 104, "", ""⟩, ⟨5, 105, "", ""⟩, ⟨6, 106, "", ""⟩] 5 1 true
      = [⟨104, 1, "open"⟩] := by
  have h := (c3_closeDisabled_targets ⟨GridDirection.LONG, 100, 107, 1/100, 1⟩
    [⟨0, 100, "", ""⟩, ⟨1, 101, "", ""⟩, ⟨2, 102, "", ""⟩, ⟨3, 103, "", ""⟩,
     ⟨4, 104, "", ""⟩, ⟨5, 105, "", ""⟩, ⟨6, 106, "", ""⟩] 0 0).2 rfl (by norm_num)
  obtain ⟨h1, h2⟩ := h
  refine ⟨?_, ?_⟩
  · rw [h1]; rfl
  · rw [h2]; rfl

/-! ### Drift reset (BotEngine.watchTickerLoop, second revision with cooldown) -/

/-- Per-strategy mutable state read by the ticker loop: `anchorIndices[key]`
(`none` = undefined) and `lastAnchorResetTime[key]` (the `|| 0` default is the
initial state `0`). -/
structure DriftState where
  anchorIndex : Option ℕ
  lastAnchorResetTime : ℤ
deriving DecidableEq, Repr

/-- Local grid spacing used by `watchTickerLoop`: distance to the upper
neighbor when the anchor is not the last level, otherwise to the lower
neighbor, with a `levels[1] - levels[0]` fallback. -/
def localGridDiff (levels : List GridLevel) (anchorIdx : ℕ) : ℚ :=
  if anchorIdx + 1 < levels.length then
    (levels.getD (anchorIdx + 1) dummyLevel).price - (levels.getD anchorIdx dummyLevel).price
  else if 0 < anchorIdx then
    (levels.getD anchorIdx dummyLevel).price - (levels.getD (anchorIdx - 1) dummyLevel).price
  else
    (levels.getD 1 dummyLevel).price - (levels.getD 0 dummyLevel).price

/-- One ticker event processed by `watchTickerLoop`: returns the updated
state and whether a drift reset fired (anchor moved, reset time recorded,
`Refresh()` called). -/
def driftStep (config : GridConfig) (levels : List GridLevel) (state : DriftState)
    (currentPrice : ℚ) (now : ℤ) : DriftState × Bool :=
  match state.anchorIndex with
  | none => (state, false)
  | some anchorIdx =>
    if |currentPrice - (levels.getD anchorIdx dummyLevel).price|
        > localGridDiff levels anchorIdx * 2 then
      if now - state.lastAnchorResetTime < 5000 then (state, false)
      else
        match getNearestLevels config levels currentPrice with
        | some nearest =>
          if closerIndex nearest currentPrice ≠ anchorIdx then
            (⟨some (closerIndex nearest currentPrice), now⟩, true)
          else (state, false)
        | none => (state, false)
    else (state, false)

/-- Timestamps of the drift resets fired while folding the ticker loop over a
list of `(price, now)` events. -/
def driftRun (config : GridConfig) (levels : List GridLevel) :
    DriftState → List (ℚ × ℤ) → List ℤ
  | _, [] => []
  | state, (price, now) :: events =>
      (if (driftStep config levels state price now).2 then [now] else []) ++
        driftRun config levels (driftStep config levels state price now).1 events

/-- Exhaustive case split of one ticker step: either nothing fires and the
state is unchanged, or every guard held and the reset is recorded at `now`. -/
theorem driftStep_cases (config : GridConfig) (levels : List GridLevel)
    (state : DriftState) (currentPrice : ℚ) (now : ℤ) :
    ((driftStep config levels state currentPrice now).2 = false ∧
      (driftStep config levels state currentPrice now).1 = state) ∨
    (∃ anchorIdx nearest, state.anchorIndex = some anchorIdx ∧
      |currentPrice - (levels.getD anchorIdx dummyLevel).price|
        > localGridDiff levels anchorIdx * 2 ∧
      5000 ≤ now - state.lastAnchorResetTime ∧
      getNearestLevels config levels currentPrice = some nearest ∧
      closerIndex nearest currentPrice ≠ anchorIdx ∧
      driftStep config levels state currentPrice now
        = (⟨some (closerIndex nearest currentPrice), now⟩, true)) := by
  cases hA : state.anchorIndex with
  | none => left; simp [driftStep, hA]
  | some anchorIdx =>
    simp only [driftStep, hA]
    split
    · rename_i hthr
      split
      · left; simp
      · rename_i hcool
        cases hN : getNearestLevels config levels currentPrice with
        | none => left; simp [hN]
        | some nearest =>
          simp only [hN]
          split
          · rename_i hne
            right
            exact ⟨anchorIdx, nearest, rfl, hthr, by omega, rfl, hne, rfl⟩
          · left; simp
    · left; simp

theorem driftRun_head_ge (config : GridConfig) (levels : List GridLevel) :
    ∀ (events : List (ℚ × ℤ)) (state : DriftState) (t : ℤ),
      (driftRun config levels state events).head? = some t →
      state.lastAnchorResetTime + 5000 ≤ t := by
  intro events
  induction events with
  | nil => intro state t h; simp [driftRun] at h
  | cons e events ih =>
    intro state t h
    obtain ⟨price, now⟩ := e
    rcases driftStep_cases config levels state price now with ⟨hfalse, hsame⟩ | hreset
    · rw [driftRun, hfalse] at h
      simp only [Bool.false_eq_true, if_false, List.nil_append] at h
      rw [hsame] at h
      exact ih state t h
    · obtain ⟨anchorIdx, nearest, -, -, hcool, -, -, hstep⟩ := hreset
      rw [driftRun, hstep] at h
      simp only [if_true, List.singleton_append, List.head?_cons,
        Option.some.injEq] at h
      omega

/-- C8 (amended): a drift reset fires only when `|ticker - anchorPrice|`
strictly exceeds twice the code's local spacing (distance to the upper
neighbor when one exists, else to the lower neighbor) and at least 5000 ms
have elapsed since the strategy's last reset, and firing records the reset
time; consequently consecutive reset timestamps of a strategy are always at
least 5000 ms apart, regardless of ticker frequency. -/
theorem c8_amended (config : GridConfig) (levels : List GridLevel)
    (state : DriftState) (currentPrice : ℚ) (now : ℤ) (events : List (ℚ × ℤ)) :
    ((driftStep config levels state currentPrice now).2 = true →
      ∃ anchorIdx, state.anchorIndex = some anchorIdx ∧
        |currentPrice - (levels.getD anchorIdx dummyLevel).price|
          > localGridDiff levels anchorIdx * 2 ∧
        5000 ≤ now - state.lastAnchorResetTime ∧
        (driftStep config levels state currentPrice now).1.lastAnchorResetTime = now) ∧
    List.Chain' (fun a b => a + 5000 ≤ b) (driftRun config levels state events) := by
  constructor
  · intro hfired
    rcases driftStep_cases config levels state currentPrice now with ⟨hfalse, -⟩ | hreset
    · rw [hfired] at hfalse
      exact absurd hfalse (by simp)
    · obtain ⟨anchorIdx, nearest, hA, hthr, hcool, -, -, hstep⟩ := hreset
      exact ⟨anchorIdx, hA, hthr, hcool, by rw [hstep]⟩
  · induction events generalizing state with
    | nil => simp [driftRun]
    | cons e events ih =>
      obtain ⟨price, now'⟩ := e
      rcases driftStep_cases config levels state price now' with ⟨hfalse, hsame⟩ | hreset
      · rw [driftRun, hfalse]
        simp only [Bool.false_eq_true, if_false, List.nil_append]
        rw [hsame]
        exact ih state
      · obtain ⟨anchorIdx, nearest, -, -, hcool, -, -, hstep⟩ := hreset
        rw [driftRun, hstep]
        simp only [if_true, List.singleton_append]
        rw [List.chain'_cons']
        constructor
        · intro b hb
          have := driftRun_head_ge config levels events
            ⟨some (closerIndex nearest price), now'⟩ b hb
          simp only at this
          omega
        · exact ih ⟨some (closerIndex nearest price), now'⟩

/-- Formalization of the claim's own spacing definition (spec §4.3 OnDrift):
distance to the neighboring level in the direction of travel, or the only
available neighbor at a boundary. Used solely to compare the claim's wording
with the code's `localGridDiff`. -/
def specLocalSpacing (levels : List GridLevel) (anchorIdx : ℕ) (tickerPrice : ℚ) : ℚ :=
  if tickerPrice < (levels.getD anchorIdx dummyLevel).price then
    if 0 < anchorIdx then
      (levels.getD anchorIdx dummyLevel).price - (levels.getD (anchorIdx - 1) dummyLevel).price
    else
      (levels.getD (anchorIdx + 1) dummyLevel).price - (levels.getD anchorIdx dummyLevel).price
  else
    if anchorIdx + 1 < levels.length then
      (levels.getD (anchorIdx + 1) dummyLevel).price - (levels.getD anchorIdx dummyLevel).price
    else
      (levels.getD anchorIdx dummyLevel).price - (levels.getD (anchorIdx - 1) dummyLevel).price

/-- C8 (counterexample): the claim defines the local spacing as the distance
to the neighbor in the direction of travel, but the code always uses the
upper neighbor when one exists. On the (ledger-loadable) ladder
`100, 103, 104` with anchor 1, ticker `100.5` travelling down: the code's
threshold is `2·(104-103) = 2 < 2.5`, so a reset fires, yet the claim's
threshold `2·(103-100) = 6` is not exceeded. -/
theorem c8_counterexample :
    (driftStep ⟨GridDirection.LONG, 99, 105, 1/100, 1⟩
      [⟨0, 100, "", ""⟩, ⟨1, 103, "", ""⟩, ⟨2, 104, "", ""⟩]
      ⟨some 1, 0⟩ (201/2) 6000).2 = true ∧
    ¬(|(201/2 : ℚ) - (([⟨0, 100, "", ""⟩, ⟨1, 103, "", ""⟩, ⟨2, 104, "", ""⟩] :
        List GridLevel).getD 1 dummyLevel).price|
      > specLocalSpacing [⟨0, 100, "", ""⟩, ⟨1, 103, "", ""⟩, ⟨2, 104, "", ""⟩] 1 (201/2) * 2) := by
  constructor
  · norm_num [driftStep, localGridDiff, getNearestLevels, findBracket, closerIndex,
      List.getD, dummyLevel, abs_of_nonneg, abs_of_nonpos]
  · norm_num [specLocalSpacing, List.getD, dummyLevel, abs_of_nonneg, abs_of_nonpos]

/-- C8 (witness): the amended theorem applied at the concrete firing input. -/
theorem c8_witness :
    ∃ anchorIdx, (⟨some 1, 0⟩ : DriftState).anchorIndex = some anchorIdx ∧
      |(201/2 : ℚ) - (([⟨0, 100, "", ""⟩, ⟨1, 103, "", ""⟩, ⟨2, 104, "", ""⟩] :
          List GridLevel).getD anchorIdx dummyLevel).price|
        > localGridDiff [⟨0, 100, "", ""⟩, ⟨1, 103, "", ""⟩, ⟨2, 104, "", ""⟩] anchorIdx * 2 ∧
      (5000 : ℤ) ≤ 6000 - (⟨some 1, 0⟩ : DriftState).lastAnchorResetTime ∧
      (driftStep ⟨GridDirection.LONG, 99, 105, 1/100, 1⟩
        [⟨0, 100, "", ""⟩, ⟨1, 103, "", ""⟩, ⟨2, 104, "", ""⟩]
        ⟨some 1, 0⟩ (201/2) 6000).1.lastAnchorResetTime = 6000 := by
  exact (c8_amended ⟨GridDirection.LONG, 99, 105, 1/100, 1⟩
    [⟨0, 100, "", ""⟩, ⟨1, 103, "", ""⟩, ⟨2, 104, "", ""⟩]
    ⟨some 1, 0⟩ (201/2) 6000 []).1
    (by norm_num [driftStep, localGridDiff, getNearestLevels, findBracket, closerIndex,
      List.getD, dummyLevel, abs_of_nonneg, abs_of_nonpos])

/-! ### OrderExecutor.syncActiveOrders: diff computation -/

/-- Snapshot of a venue order as read by `fetchOpenOrders` (the fields
`syncActiveOrders` consults). `posSide` is `o.info.posSide`; `none` models the
field being absent, in which case the code falls back to inferring it from
the buy/sell side. -/
structure RemoteOrder where
  id : ℕ
  price : ℚ
  side : String
  posSide : Option String
  tradeSide : String
deriving DecidableEq, Repr

/-- Value `targetPosSide` from step 2 of `syncActiveOrders`. -/
def targetPosSide (direction : GridDirection) : String :=
  if direction = GridDirection.LONG then "long" else "short"

/-- Value `orderPosSide`: `o.info.posSide || (o.side === "buy" ? "long" : "short")`. -/
def orderPosSide (o : RemoteOrder) : String :=
  o.posSide.getD (if o.side = "buy" then "long" else "short")

/-- Live orders filtered to the strategy's position side. -/
def strategyOrders (direction : GridDirection) (openOrders : List RemoteOrder) :
    List RemoteOrder :=
  openOrders.filter (fun o => decide (orderPosSide o = targetPosSide direction))

/-- The fixed matching epsilon `0.00000001` from step 3. -/
def syncEpsilon : ℚ := 1 / 100000000

/-- Predicate of the `find` in step 3: price within epsilon AND matching
open/close tag. -/
def priceActionMatch (t : TargetOrder) (o : RemoteOrder) : Bool :=
  decide (|o.price - t.price| < syncEpsilon ∧ o.tradeSide = t.action)

/-- Array `ordersToKeep`: for each target in order, the first live order matching
it (an order found twice is pushed twice, mirroring the JS array). -/
def ordersToKeep (currentStrategyOrders : List RemoteOrder)
    (targets : List TargetOrder) : List RemoteOrder :=
  targets.filterMap (fun t => currentStrategyOrders.find? (priceActionMatch t))

/-- Array `targetsToPlace`: targets for which no live order matched. -/
def targetsToPlace (currentStrategyOrders : List RemoteOrder)
    (targets : List TargetOrder) : List TargetOrder :=
  targets.filter (fun t => (currentStrategyOrders.find? (priceActionMatch t)).isNone)

/-- Batch-create request of step 6 (LONG ⇒ buy side, SHORT ⇒ sell side;
open/close carried in `tradeSide`). -/
structure CreateRequest where
  side : String
  amount : ℚ
  price : ℚ
  tradeSide : String
deriving DecidableEq, Repr

def mkCreateRequest (direction : GridDirection) (t : TargetOrder) : CreateRequest :=
  ⟨if direction = GridDirection.LONG then "buy" else "sell", t.amount, t.price, t.action⟩

/-- The pure diff of one `syncActiveOrders` call: ids to batch-cancel and
requests to batch-create. The JS `ordersToKeep.includes(o)` compares object
references; orders here are compared structurally, which coincides with
reference identity once order ids are distinct (the `Nodup` hypotheses of the
theorems below). -/
def syncPlan (direction : GridDirection) (openOrders : List RemoteOrder)
    (targets : List TargetOrder) : List ℕ × List CreateRequest :=
  let currentStrategyOrders := strategyOrders direction openOrders
  let keep := ordersToKeep currentStrategyOrders targets
  ((currentStrategyOrders.filter (fun o => decide (¬ o ∈ keep))).map RemoteOrder.id,
    (targetsToPlace currentStrategyOrders targets).map (mkCreateRequest direction))

/-- Venue-side effect of a created request: a fresh-id open order at exactly
the requested price/tag, position side implied by the buy/sell side (hedge
mode). -/
def mkRemoteOrder (c : CreateRequest) (newId : ℕ) : RemoteOrder :=
  ⟨newId, c.price, c.side, some (if c.side = "buy" then "long" else "short"), c.tradeSide⟩

/-- Venue open-order set after a sync whose cancels and creates all succeed
and no external change occurs: cancelled ids removed, created orders
appended with the given fresh ids. -/
def applySyncPlan (openOrders : List RemoteOrder)
    (plan : List ℕ × List CreateRequest) (freshIds : List ℕ) : List RemoteOrder :=
  openOrders.filter (fun o => decide (¬ o.id ∈ plan.1)) ++
    (plan.2.zip freshIds).map (fun p => mkRemoteOrder p.1 p.2)

/-! ### C1: error flow of syncActiveOrders -/

/-- Error object thrown inside `syncActiveOrders` (`code` is the tag attached
to the rethrown no-position error). -/
structure SyncError where
  code : Option String
  message : String
deriving DecidableEq, Repr

def charsStartWith : List Char → List Char → Bool
  | [], _ => true
  | _ :: _, [] => false
  | p :: ps, c :: cs => p == c && charsStartWith ps cs

/-- JavaScript `String.prototype.includes`. -/
def strContainsSub (msg pat : String) : Bool :=
  msg.data.tails.any (fun suffix => charsStartWith pat.data suffix)

/-- Body of the outer `try` of `syncActiveOrders`, with the gateway responses
as inputs: a failed `fetchOpenOrders` throws; batch-cancel failures are
swallowed by the per-id fallback (each per-id rejection is `.catch(() => {})`
ed away); a failed batch create is logged, and rethrown with code
`NO_POSITION` only when its message contains `22002` or
`No position to close` (all other create failures are swallowed in the inner
catch). -/
def innerSyncResult (direction : GridDirection) (targets : List TargetOrder)
    (fetchResult : Except String (List RemoteOrder))
    (createResult : Except String Unit) : Except SyncError Unit :=
  match fetchResult with
  | .error e => .error ⟨none, e⟩
  | .ok openOrders =>
    let plan := syncPlan direction openOrders targets
    if plan.2.isEmpty then .ok ()
    else
      match createResult with
      | .ok _ => .ok ()
      | .error msg =>
        if strContainsSub msg "22002" || strContainsSub msg "No position to close" then
          .error ⟨some "NO_POSITION", msg⟩
        else .ok ()

/-- Overall result of `syncActiveOrders`: the outer
`catch (error) { logger.error(...) }` swallows every error thrown by the
body, including the rethrown `NO_POSITION` error, and the method resolves
normally. -/
def syncActiveOrdersResult (direction : GridDirection) (targets : List TargetOrder)
    (fetchResult : Except String (List RemoteOrder))
    (createResult : Except String Unit) : Except SyncError Unit :=
  match innerSyncResult direction targets fetchResult createResult with
  | .error _ => .ok ()
  | .ok u => .ok u

/-- C1: when the batch create fails with a recognizable no-position message,
the body of `syncActiveOrders` does build the distinguished `NO_POSITION`
error (first conjunct) — but the method's outer catch swallows it along with
every other failure, so `syncActiveOrders` always resolves normally (second
conjunct) and the caller's `error.code === "NO_POSITION"` handler in
`refreshGridOrdersByAnchor` is unreachable. -/
theorem c1_noPosition_swallowed :
    innerSyncResult GridDirection.LONG [⟨1, 1, "open"⟩] (.ok [])
        (.error "bitget 22002 No position to close")
      = .error ⟨some "NO_POSITION", "bitget 22002 No position to close"⟩ ∧
    ∀ (direction : GridDirection) (targets : List TargetOrder)
      (fetchResult : Except String (List RemoteOrder))
      (createResult : Except String Unit),
      syncActiveOrdersResult direction targets fetchResult createResult = .ok () := by
  constructor
  · rfl
  · intro direction targets fetchResult createResult
    rw [syncActiveOrdersResult]
    cases innerSyncResult direction targets fetchResult createResult <;> rfl

/-! ### C7: idempotency of the diff -/

theorem find?_filter_keep {α : Type} (p q : α → Bool) :
    ∀ (l : List α) (o : α), l.find? p = some o → q o = true →
      (l.filter q).find? p = some o := by
  intro l
  induction l with
  | nil => intro o h _; simp at h
  | cons a l ih =>
    intro o h hq
    cases hpa : p a with
    | true =>
      rw [List.find?_cons_of_pos _ hpa] at h
      have ha : a = o := by simpa using h
      subst ha
      rw [List.filter_cons_of_pos hq, List.find?_cons_of_pos _ hpa]
    | false =>
      rw [List.find?_cons_of_neg _ (by simp [hpa])] at h
      by_cases hqa : q a = true
      · rw [List.filter_cons_of_pos hqa, List.find?_cons_of_neg _ (by simp [hpa])]
        exact ih o h hq
      · rw [List.filter_cons_of_neg (by simpa using hqa)]
        exact ih o h hq

theorem find?_append_some {α : Type} {p : α → Bool} {l₁ l₂ : List α} {o : α}
    (h : l₁.find? p = some o) : (l₁ ++ l₂).find? p = some o := by
  rw [List.find?_append, h]
  rfl

theorem find?_append_none {α : Type} {p : α → Bool} {l₁ l₂ : List α}
    (h : l₁.find? p = none) : (l₁ ++ l₂).find? p = l₂.find? p := by
  rw [List.find?_append, h]
  rfl

/-- Orders appended by the venue for the placed targets, with fresh ids. -/
def newFromTargets (direction : GridDirection) (ts : List TargetOrder)
    (ids : List ℕ) : List RemoteOrder :=
  (ts.zip ids).map (fun p => mkRemoteOrder (mkCreateRequest direction p.1) p.2)

theorem newFromTargets_eq (direction : GridDirection) (ts : List TargetOrder)
    (ids : List ℕ) :
    ((ts.map (mkCreateRequest direction)).zip ids).map (fun p => mkRemoteOrder p.1 p.2)
      = newFromTargets direction ts ids := by
  rw [List.zip_map_left, List.map_map]
  rfl

theorem priceActionMatch_mk_self (direction : GridDirection) (t : TargetOrder) (i : ℕ) :
    priceActionMatch t (mkRemoteOrder (mkCreateRequest direction t) i) = true := by
  simp [priceActionMatch, mkRemoteOrder, mkCreateRequest, syncEpsilon]

theorem priceActionMatch_mk (direction : GridDirection) (t t' : TargetOrder) (i : ℕ) :
    priceActionMatch t (mkRemoteOrder (mkCreateRequest direction t') i)
      = decide (|t'.price - t.price| < syncEpsilon ∧ t'.action = t.action) := by
  simp [priceActionMatch, mkRemoteOrder, mkCreateRequest]

/-- Distinctness hypothesis for the amended idempotency claim: no two
targets of the list would match the same created order (prices at least
epsilon apart, or different open/close tags). -/
def targetsDistinct (targets : List TargetOrder) : Prop :=
  targets.Pairwise
    (fun t1 t2 => ¬(|t1.price - t2.price| < syncEpsilon ∧ t1.action = t2.action))

/-- On the freshly created orders, every target finds an order, and every
order is found by some target. -/
theorem newFromTargets_find (direction : GridDirection) :
    ∀ (ts : List TargetOrder) (ids : List ℕ), targetsDistinct ts →
      ids.length = ts.length →
      (∀ t ∈ ts, ∃ o, (newFromTargets direction ts ids).find? (priceActionMatch t) = some o) ∧
      (∀ o ∈ newFromTargets direction ts ids, ∃ t ∈ ts,
        (newFromTargets direction ts ids).find? (priceActionMatch t) = some o) := by
  intro ts
  induction ts with
  | nil =>
    intro ids _ _
    exact ⟨by simp, by simp [newFromTargets]⟩
  | cons t ts ih =>
    intro ids hdist hlen
    cases ids with
    | nil => simp at hlen
    | cons i ids =>
      have hlen' : ids.length = ts.length := by simpa using hlen
      have hpair := List.pairwise_cons.mp hdist
      obtain ⟨ihA, ihB⟩ := ih ids hpair.2 hlen'
      have hcons : newFromTargets direction (t :: ts) (i :: ids)
          = mkRemoteOrder (mkCreateRequest direction t) i
            :: newFromTargets direction ts ids := rfl
      have hheadfail : ∀ t' ∈ ts,
          priceActionMatch t' (mkRemoteOrder (mkCreateRequest direction t) i) = false := by
        intro t' ht'
        rw [priceActionMatch_mk]
        simp only [decide_eq_false_iff_not]
        exact hpair.1 t' ht'
      constructor
      · intro t' ht'
        rcases List.mem_cons.mp ht' with rfl | hmem
        · exact ⟨mkRemoteOrder (mkCreateRequest direction t') i, by
            rw [hcons, List.find?_cons_of_pos _ (priceActionMatch_mk_self direction t' i)]⟩
        · obtain ⟨o, hfind⟩ := ihA t' hmem
          refine ⟨o, ?_⟩
          rw [hcons, List.find?_cons_of_neg _ (by simp [hheadfail t' hmem])]
          exact hfind
      · intro o ho
        rw [hcons] at ho
        rcases List.mem_cons.mp ho with rfl | hmem
        · exact ⟨t, List.mem_cons_self t ts, by
            rw [hcons, List.find?_cons_of_pos _ (priceActionMatch_mk_self direction t i)]⟩
        · obtain ⟨t', ht', hfind⟩ := ihB o hmem
          refine ⟨t', List.mem_cons_of_mem t ht', ?_⟩
          rw [hcons, List.find?_cons_of_neg _ (by simp [hheadfail t' ht'])]
          exact hfind

/-- The created orders all carry the strategy's position side. -/
theorem strategyOrders_newFromTargets (direction : GridDirection)
    (ts : List TargetOrder) (ids : List ℕ) :
    (newFromTargets direction ts ids).filter
        (fun o => decide (orderPosSide o = targetPosSide direction))
      = newFromTargets direction ts ids := by
  rw [List.filter_eq_self]
  intro o ho
  simp only [newFromTargets, List.mem_map] at ho
  obtain ⟨p, -, rfl⟩ := ho
  cases direction <;>
    simp [orderPosSide, mkRemoteOrder, mkCreateRequest, targetPosSide]

/-- Decomposition of the strategy's live orders after a fully applied sync:
the kept orders (in order) followed by the created orders. -/
theorem strategyOrders_after_sync (direction : GridDirection)
    (openOrders : List RemoteOrder) (targets : List TargetOrder) (freshIds : List ℕ)
    (hids : ((openOrders.map RemoteOrder.id) ++ freshIds).Nodup) :
    strategyOrders direction
        (applySyncPlan openOrders (syncPlan direction openOrders targets) freshIds)
      = (strategyOrders direction openOrders).filter
          (fun o => decide (o ∈ ordersToKeep (strategyOrders direction openOrders) targets))
        ++ newFromTargets direction
            (targetsToPlace (strategyOrders direction openOrders) targets) freshIds := by
  have hplan1 : (syncPlan direction openOrders targets).1
      = ((strategyOrders direction openOrders).filter
          (fun o => decide (¬ o ∈ ordersToKeep (strategyOrders direction openOrders) targets))).map
          RemoteOrder.id := rfl
  have hplan2 : (syncPlan direction openOrders targets).2
      = (targetsToPlace (strategyOrders direction openOrders) targets).map
          (mkCreateRequest direction) := rfl
  have happly : applySyncPlan openOrders (syncPlan direction openOrders targets) freshIds
      = openOrders.filter
          (fun o => decide (¬ o.id ∈ (syncPlan direction openOrders targets).1))
        ++ newFromTargets direction
            (targetsToPlace (strategyOrders direction openOrders) targets) freshIds := by
    rw [applySyncPlan, hplan2, newFromTargets_eq]
  rw [happly, strategyOrders, List.filter_append]
  have hnewpart := strategyOrders_newFromTargets direction
    (targetsToPlace (strategyOrders direction openOrders) targets) freshIds
  rw [hnewpart]
  congr 1
  rw [List.filter_comm]
  have hid_nodup : (openOrders.map RemoteOrder.id).Nodup := (List.nodup_append.mp hids).1
  have hcur_sub : (strategyOrders direction openOrders).Sublist openOrders :=
    List.filter_sublist _
  have hcur_idnodup : ((strategyOrders direction openOrders).map RemoteOrder.id).Nodup :=
    List.Nodup.sublist (hcur_sub.map RemoteOrder.id) hid_nodup
  refine List.filter_congr ?_
  intro o ho
  have hiff : o.id ∈ (syncPlan direction openOrders targets).1
      ↔ o ∉ ordersToKeep (strategyOrders direction openOrders) targets := by
    rw [hplan1]
    constructor
    · intro hmem
      obtain ⟨o', ho', hid⟩ := List.mem_map.mp hmem
      have h1 := List.mem_filter.mp ho'
      have ho'keep : o' ∉ ordersToKeep (strategyOrders direction openOrders) targets := by
        simpa using h1.2
      have heq : o' = o := List.inj_on_of_nodup_map hcur_idnodup h1.1 ho hid
      rwa [heq] at ho'keep
    · intro hnk
      exact List.mem_map_of_mem RemoteOrder.id
        (List.mem_filter.mpr ⟨ho, by simpa using hnk⟩)
  exact decide_eq_decide.mpr (by rw [hiff]; exact not_not)

/-- C7 (amended): `syncActiveOrders` is idempotent for target lists in which
no two targets would match the same order (pairwise: prices at least epsilon
apart or different open/close tags). If a sync's cancels and creates are all
applied by the venue (fresh distinct ids) and no external change occurs, a
second sync with the same targets computes an empty diff: zero cancels and
zero creates. -/
theorem c7_amended (direction : GridDirection) (openOrders : List RemoteOrder)
    (targets : List TargetOrder) (freshIds : List ℕ)
    (hids : ((openOrders.map RemoteOrder.id) ++ freshIds).Nodup)
    (hlen : freshIds.length = (syncPlan direction openOrders targets).2.length)
    (hdist : targetsDistinct targets) :
    syncPlan direction
      (applySyncPlan openOrders (syncPlan direction openOrders targets) freshIds)
      targets = ([], []) := by
  have hcur₂ := strategyOrders_after_sync direction openOrders targets freshIds hids
  have hlenp : freshIds.length
      = (targetsToPlace (strategyOrders direction openOrders) targets).length := by
    rw [hlen]
    exact List.length_map _ _
  have hsubp : (targetsToPlace (strategyOrders direction openOrders) targets).Sublist
      targets := List.filter_sublist _
  have hdistp : targetsDistinct
      (targetsToPlace (strategyOrders direction openOrders) targets) :=
    List.Pairwise.sublist hsubp hdist
  obtain ⟨hfindA, hfindB⟩ := newFromTargets_find direction
    (targetsToPlace (strategyOrders direction openOrders) targets) freshIds hdistp hlenp
  -- find? over the post-sync strategy orders, for every target
  have hfind₂ : ∀ t ∈ targets, ∃ o,
      (strategyOrders direction
        (applySyncPlan openOrders (syncPlan direction openOrders targets) freshIds)).find?
        (priceActionMatch t) = some o := by
    intro t ht
    rw [hcur₂]
    cases hft : (strategyOrders direction openOrders).find? (priceActionMatch t) with
    | some o =>
      refine ⟨o, find?_append_some (find?_filter_keep _ _ _ o hft ?_)⟩
      exact decide_eq_true (List.mem_filterMap.mpr ⟨t, ht, hft⟩)
    | none =>
      have hprefix : ((strategyOrders direction openOrders).filter
          (fun o => decide (o ∈ ordersToKeep (strategyOrders direction openOrders) targets))).find?
          (priceActionMatch t) = none := by
        rw [List.find?_eq_none]
        intro o ho
        exact List.find?_eq_none.mp hft o (List.mem_of_mem_filter ho)
      rw [find?_append_none hprefix]
      exact hfindA t (List.mem_filter.mpr ⟨ht, by rw [hft]; rfl⟩)
  -- every post-sync strategy order is kept by the second diff
  have hkeep₂ : ∀ o ∈ strategyOrders direction
      (applySyncPlan openOrders (syncPlan direction openOrders targets) freshIds),
      o ∈ ordersToKeep (strategyOrders direction
        (applySyncPlan openOrders (syncPlan direction openOrders targets) freshIds))
        targets := by
    intro o ho
    rw [hcur₂] at ho
    rcases List.mem_append.mp ho with hkept | hnew
    · have h1 := List.mem_filter.mp hkept
      have hk : o ∈ ordersToKeep (strategyOrders direction openOrders) targets := by
        simpa using h1.2
      obtain ⟨t, ht, hft⟩ := List.mem_filterMap.mp hk
      refine List.mem_filterMap.mpr ⟨t, ht, ?_⟩
      rw [hcur₂]
      exact find?_append_some (find?_filter_keep _ _ _ o hft (decide_eq_true hk))
    · obtain ⟨t, ht, hft⟩ := hfindB o hnew
      have htt : t ∈ targets := List.Sublist.mem ht hsubp
      have hft₁ : (strategyOrders direction openOrders).find? (priceActionMatch t)
          = none := by
        have := (List.mem_filter.mp ht).2
        simpa [Option.isNone_iff_eq_none] using this
      refine List.mem_filterMap.mpr ⟨t, htt, ?_⟩
      rw [hcur₂]
      have hprefix : ((strategyOrders direction openOrders).filter
          (fun o => decide (o ∈ ordersToKeep (strategyOrders direction openOrders) targets))).find?
          (priceActionMatch t) = none := by
        rw [List.find?_eq_none]
        intro o' ho'
        exact List.find?_eq_none.mp hft₁ o' (List.mem_of_mem_filter ho')
      rw [find?_append_none hprefix]
      exact hft
  -- assemble: both components of the second plan are empty
  have hcomp1 : (syncPlan direction
      (applySyncPlan openOrders (syncPlan direction openOrders targets) freshIds)
      targets).1 = [] := by
    show ((strategyOrders direction _).filter _).map RemoteOrder.id = []
    rw [List.filter_eq_nil_iff.mpr, List.map_nil]
    intro o ho
    simp only [decide_eq_true_eq, Bool.not_eq_true, decide_eq_false_iff_not, not_not]
    exact hkeep₂ o ho
  have hcomp2 : (syncPlan direction
      (applySyncPlan openOrders (syncPlan direction openOrders targets) freshIds)
      targets).2 = [] := by
    show ((targetsToPlace (strategyOrders direction _) targets).map _) = []
    rw [targetsToPlace, List.filter_eq_nil_iff.mpr, List.map_nil]
    intro t ht
    obtain ⟨o, ho⟩ := hfind₂ t ht
    rw [ho]
    simp
  exact Prod.ext hcomp1 hcomp2

/-- C7 (counterexample): the claim promises zero cancels and zero creates on
the second identical sync for every target set. With the duplicated target
list `[t, t]` (same price, same tag) the first sync creates two orders; on
the second sync both targets `find` the first created order, so the second
created order is not kept and one cancel is issued. -/
theorem c7_counterexample :
    syncPlan GridDirection.LONG
      (applySyncPlan []
        (syncPlan GridDirection.LONG [] [⟨1, 1, "open"⟩, ⟨1, 1, "open"⟩]) [1, 2])
      [⟨1, 1, "open"⟩, ⟨1, 1, "open"⟩] = ([2], []) ∧
    ([2], ([] : List CreateRequest)) ≠ (([] : List ℕ), ([] : List CreateRequest)) := by
  constructor
  · norm_num [syncPlan, applySyncPlan, strategyOrders, ordersToKeep, targetsToPlace,
      priceActionMatch, orderPosSide, targetPosSide, mkCreateRequest, mkRemoteOrder,
      syncEpsilon, List.find?, List.filter, List.filterMap]
  · simp

/-- C7 (witness): the amended idempotency theorem at a concrete input: one
target, empty venue, fresh id 5 — the second diff is empty. -/
theorem c7_witness :
    syncPlan GridDirection.LONG
      (applySyncPlan [] (syncPlan GridDirection.LONG [] [⟨1, 1, "open"⟩]) [5])
      [⟨1, 1, "open"⟩] = ([], []) := by
  exact c7_amended GridDirection.LONG [] [⟨1, 1, "open"⟩] [5]
    (by simp) (by rfl) (by simp [targetsDistinct])

/-! ### C6: ledger persistence (GridContext.saveToCsv / loadFromCsv /
checkConfigMatch / initialize)

JS strings are modelled as `List Char`; the ledger file is modelled as its
list of lines (`saveToCsv` writes the lines joined by newlines with no
trailing newline, `loadFromCsv` recovers them with `trim().split("\n")`; the
join/split round trip is the identity for ids free of newlines and
whitespace, which is part of the row hypotheses of the round-trip theorem). -/

/-- JavaScript `String.prototype.split` with a one-character separator. -/
def chSplitOn (sep : Char) : List Char → List (List Char)
  | [] => [[]]
  | c :: cs =>
      if c = sep then [] :: chSplitOn sep cs
      else
        match chSplitOn sep cs with
        | f :: r => (c :: f) :: r
        | [] => [[c]]

/-- Digit-string value; on the all-digit fields written by `saveToCsv` this
agrees with JavaScript `parseInt`/`Number` (and `Number("") = 0`). -/
def chParseNat (cs : List Char) : ℕ :=
  cs.foldl (fun acc c => acc * 10 + (c.toNat - 48)) 0

/-- Decimal expansion of a fractional part (`0 ≤ f < 1`), up to `fuel`
digits: JS prints the shortest decimal representation of the double, which
for tick-aligned prices is the finite expansion produced here. -/
def ratFracDigits : ℚ → ℕ → List Char
  | _, 0 => []
  | f, fuel + 1 =>
      if f = 0 then []
      else Char.ofNat (48 + (⌊f * 10⌋).toNat) :: ratFracDigits (f * 10 - ⌊f * 10⌋) fuel

def ratToCharsNonneg (q : ℚ) : List Char :=
  if q.den = 1 then (toString q.num).data
  else (toString ⌊q⌋).data ++ '.' :: ratFracDigits (q - ⌊q⌋) 30

/-- JavaScript number-to-string (template-literal) rendering of a rational. -/
def ratToChars (q : ℚ) : List Char :=
  if q < 0 then '-' :: ratToCharsNonneg (-q) else ratToCharsNonneg q

def chParseRatNonneg (cs : List Char) : ℚ :=
  match chSplitOn '.' cs with
  | [i] => (chParseNat i : ℚ)
  | [i, f] => (chParseNat i : ℚ) + (chParseNat f : ℚ) / ((10 : ℚ) ^ f.length)
  | _ => 0

/-- JavaScript `parseFloat`/`Number` on the decimal fields of the ledger. -/
def chParseRat (cs : List Char) : ℚ :=
  match cs with
  | '-' :: rest => -(chParseRatNonneg rest)
  | _ => chParseRatNonneg cs

/-- One data row of `saveToCsv`:
`` `${l.index},${l.price},${l.buyOrderId},${l.sellOrderId}` ``. -/
def rowChars (l : GridLevel) : List Char :=
  (toString l.index).data ++
    ',' :: (ratToChars l.price ++ ',' :: (l.buyOrderId.data ++ ',' :: l.sellOrderId.data))

/-- The fingerprint comment line `# config:upper,lower,spread`. -/
def configMetaChars (config : GridConfig) : List Char :=
  ("# config:").data ++
    (ratToChars config.upperPrice ++
      ',' :: (ratToChars config.lowerPrice ++ ',' :: ratToChars config.gridSpread))

/-- The CSV header row. -/
def headerChars : List Char := ("index,price,buy_order_id,sell_order_id").data

/-- Method `GridContext.saveToCsv`, as the list of lines written. -/
def saveToCsvLines (config : GridConfig) (levels : List GridLevel) : List (List Char) :=
  configMetaChars config :: headerChars :: levels.map rowChars

/-- Row parser of `GridContext.loadFromCsv`: split on commas, destructure the
first four fields (missing ids default to the empty string). -/
def parseLineChars (line : List Char) : GridLevel :=
  ⟨chParseNat ((chSplitOn ',' line).getD 0 []),
    chParseRat ((chSplitOn ',' line).getD 1 []),
    String.mk ((chSplitOn ',' line).getD 2 []),
    String.mk ((chSplitOn ',' line).getD 3 [])⟩

/-- Line filter of `loadFromCsv`: drop comment lines and the header. -/
def csvKeepLine (line : List Char) : Bool :=
  !charsStartWith ("#").data line && !charsStartWith ("index,").data line

/-- Method `GridContext.loadFromCsv` over the file's lines. -/
def loadFromCsvLines (lines : List (List Char)) : List GridLevel :=
  (lines.filter csvKeepLine).map parseLineChars

/-- Method `GridContext.checkConfigMatch`: first line must carry the fingerprint
prefix and its three comma-separated numbers must equal the current config's
`(upperPrice, lowerPrice, gridSpread)`. -/
def checkConfigMatch (config : GridConfig) (lines : List (List Char)) : Bool :=
  if !charsStartWith ("# config:").data (lines.getD 0 []) then false
  else
    decide
      ((((chSplitOn ',' ((lines.getD 0 []).drop 9)).map chParseRat).getD 0 0
          = config.upperPrice) ∧
        (((chSplitOn ',' ((lines.getD 0 []).drop 9)).map chParseRat).getD 1 0
          = config.lowerPrice) ∧
        (((chSplitOn ',' ((lines.getD 0 []).drop 9)).map chParseRat).getD 2 0
          = config.gridSpread))

/-- Method `GridContext.initialize(tickSize)`: load the ledger verbatim when it
exists and its fingerprint matches, otherwise regenerate (and rewrite) the
ladder from the config. -/
def initializeLines (config : GridConfig) (tickSize : ℚ) (fuel : ℕ)
    (file : Option (List (List Char))) : Option (List GridLevel) :=
  match file with
  | some lines =>
      if checkConfigMatch config lines then some (loadFromCsvLines lines)
      else calculateLevels config tickSize fuel
  | none => calculateLevels config tickSize fuel

theorem load_rows (levels : List GridLevel)
    (h : ∀ l ∈ levels, parseLineChars (rowChars l) = l ∧ csvKeepLine (rowChars l) = true) :
    ((levels.map rowChars).filter csvKeepLine).map parseLineChars = levels := by
  induction levels with
  | nil => rfl
  | cons l levels ih =>
    have hl := h l (List.mem_cons_self l levels)
    rw [List.map_cons, List.filter_cons_of_pos hl.2, List.map_cons, hl.1,
      ih (fun x hx => h x (List.mem_cons_of_mem l hx))]

/-- C6 (amended): for every level sequence whose rows survive the CSV line
format (each rendered row parses back to the same level and is not filtered
as a comment/header line — in particular ids contain no comma, newline or
leading `#`), reloading a saved ledger reproduces exactly the same sequence
including order ids; and `initialize` regenerates from the config whenever
the fingerprint check fails, loading the ledger verbatim only when it
matches. -/
theorem c6_amended (config : GridConfig) (tickSize : ℚ) (fuel : ℕ)
    (levels : List GridLevel)
    (hrows : ∀ l ∈ levels,
      parseLineChars (rowChars l) = l ∧ csvKeepLine (rowChars l) = true) :
    loadFromCsvLines (saveToCsvLines config levels) = levels ∧
    (∀ lines, checkConfigMatch config lines = false →
      initializeLines config tickSize fuel (some lines)
        = calculateLevels config tickSize fuel) ∧
    (∀ lines, checkConfigMatch config lines = true →
      initializeLines config tickSize fuel (some lines)
        = some (loadFromCsvLines lines)) := by
  refine ⟨?_, ?_, ?_⟩
  · have hm : csvKeepLine (configMetaChars config) = false := rfl
    have hh : csvKeepLine headerChars = false := rfl
    rw [saveToCsvLines, loadFromCsvLines, List.filter_cons_of_neg (by simp [hm]),
      List.filter_cons_of_neg (by simp [hh])]
    exact load_rows levels hrows
  · intro lines h
    simp [initializeLines, h]
  · intro lines h
    simp [initializeLines, h]

/-- C6 (counterexample): the claim quantifies over every `GridLevel`
sequence. An order id containing a comma breaks the round trip: the level
`{0, 100, "a,b", ""}` reloads as `{0, 100, "a", "b"}`. -/
theorem c6_counterexample :
    loadFromCsvLines (saveToCsvLines ⟨GridDirection.LONG, 100, 110, 3, 1⟩
        [⟨0, 100, "a,b", ""⟩])
      = [⟨0, 100, "a", "b"⟩] ∧
    ([⟨0, 100, "a", "b"⟩] : List GridLevel) ≠ [⟨0, 100, "a,b", ""⟩] := by
  constructor
  · decide
  · decide

/-- C6 (witness): round trip of a two-level ladder with recorded order ids. -/
theorem c6_witness :
    loadFromCsvLines (saveToCsvLines ⟨GridDirection.LONG, 100, 110, 3, 1⟩
        [⟨0, 100, "", ""⟩, ⟨1, 101, "ord1", "ord2"⟩])
      = [⟨0, 100, "", ""⟩, ⟨1, 101, "ord1", "ord2"⟩] := by
  exact (c6_amended ⟨GridDirection.LONG, 100, 110, 3, 1⟩ 1 0
    [⟨0, 100, "", ""⟩, ⟨1, 101, "ord1", "ord2"⟩] (by decide)).1

end GridBot
